import Mathlib

/-
Verification development for the void-bot repository.

The definitions below are shallow embeddings of the TypeScript sources:
  * src/telegram/ranks.ts   — rank table, rank lookup, rank image selection
  * src/telegram/buybot.ts  — message queue, price cache, dedup window,
                              transaction classification, buy handling,
                              poll-loop backoff
JavaScript numbers are modelled as ℚ, timestamps (Date.now(), ms) as ℤ,
nullable fields as Option, and thrown/propagated failures as explicit
outcome values.
-/

namespace VoidBot

/- ────────────────────────────────────────────
   src/telegram/ranks.ts
   ──────────────────────────────────────────── -/

/-- One entry of the rank table (`interface VoidRank` in ranks.ts):
a display name and the minimum VOID balance (whole tokens) for that rank. -/
structure VoidRank where
  name : String
  threshold : ℚ
deriving DecidableEq

/-- The rank table `VOID_RANKS` from ranks.ts, ordered from highest to
lowest threshold (44 entries). -/
def VOID_RANKS : List VoidRank := [
  ⟨"VOID Ultimate", 2000000⟩,
  ⟨"VOID Omega", 1500000⟩,
  ⟨"VOID Absolute", 1000000⟩,
  ⟨"VOID Singularity", 900000⟩,
  ⟨"VOID Omnipotence", 850000⟩,
  ⟨"VOID Eternity", 800000⟩,
  ⟨"VOID Apotheosis", 750000⟩,
  ⟨"VOID Divine", 650000⟩,
  ⟨"VOID Celestial", 600000⟩,
  ⟨"VOID Exalted", 550000⟩,
  ⟨"VOID Transcendent", 500000⟩,
  ⟨"VOID Majesty", 450000⟩,
  ⟨"VOID Sovereign", 400000⟩,
  ⟨"VOID Monarch", 350000⟩,
  ⟨"VOID Admiral", 300000⟩,
  ⟨"VOID Warden", 250000⟩,
  ⟨"VOID Harbinger", 225000⟩,
  ⟨"VOID Evoker", 200000⟩,
  ⟨"VOID Emperor", 175000⟩,
  ⟨"VOID Guardian", 150000⟩,
  ⟨"VOID Berserker", 135000⟩,
  ⟨"VOID Juggernaut", 120000⟩,
  ⟨"VOID Lord", 100000⟩,
  ⟨"VOID Alchemist", 90000⟩,
  ⟨"VOID Clairvoyant", 85000⟩,
  ⟨"VOID Conjurer", 80000⟩,
  ⟨"VOID Archdruid", 70000⟩,
  ⟨"VOID Sorcerer", 50000⟩,
  ⟨"VOID Shaman", 45000⟩,
  ⟨"VOID Sage", 40000⟩,
  ⟨"VOID Warrior", 35000⟩,
  ⟨"VOID Enchanter", 30000⟩,
  ⟨"VOID Seer", 27500⟩,
  ⟨"VOID Necromancer", 25000⟩,
  ⟨"VOID Summoner", 22500⟩,
  ⟨"VOID Master", 20000⟩,
  ⟨"VOID Disciple", 15000⟩,
  ⟨"VOID Acolyte", 12500⟩,
  ⟨"VOID Expert", 10000⟩,
  ⟨"VOID Apprentice", 7500⟩,
  ⟨"VOID Rookie", 5000⟩,
  ⟨"VOID Learner", 2500⟩,
  ⟨"VOID Initiate", 1000⟩,
  ⟨"VOID Peasant", 1⟩]

/-- The scan of `getVoidRank` over an arbitrary remaining table: return the
name of the first entry whose threshold the balance meets or exceeds
(`balance >= rank.threshold`), else fall through to "VOID Peasant". -/
def getVoidRankAux : List VoidRank → ℚ → String
  | [], _ => "VOID Peasant"
  | r :: rs, balance => if r.threshold ≤ balance then r.name else getVoidRankAux rs balance

/-- `getVoidRank` from ranks.ts: first matching entry of `VOID_RANKS`,
default "VOID Peasant". -/
def getVoidRank (balance : ℚ) : String :=
  getVoidRankAux VOID_RANKS balance

/-- JavaScript `Math.round`: round half toward positive infinity. -/
def jsRound (x : ℚ) : ℤ := ⌊x + 1/2⌋

/-- The image-number computation of `getRankImageUrl` in ranks.ts:
`rankIndex = VOID_RANKS.findIndex(r => r.name === rankName)`; a missing
name (findIndex = -1) falls back to rank 2 (the Peasant image); otherwise
`2 + Math.round((1 - rankIndex/(totalRanks-1)) * 43)`. -/
def rankImageNum (rankName : String) : ℤ :=
  let rankIndex := VOID_RANKS.findIdx fun r => r.name == rankName
  if rankIndex = VOID_RANKS.length then 2
  else 2 + jsRound ((1 - (rankIndex : ℚ) / ((VOID_RANKS.length : ℚ) - 1)) * 43)

/-- `getRankImageUrl` from ranks.ts: interpolates the image number into the
hosted-image URL. -/
def getRankImageUrl (rankName : String) : String :=
  "https://voidsolana.com/ranks/rank" ++ toString (rankImageNum rankName) ++ ".png"

/-- Index of a rank name in the table (position in the highest-to-lowest
ordering), 44 when the name is absent. -/
def tableIdx (rankName : String) : ℕ :=
  VOID_RANKS.findIdx fun r => r.name == rankName

/-- The name stored at position `i` of a rank table, with the same default
the scan falls through to. -/
def nameAtDefault (l : List VoidRank) (i : ℕ) : String :=
  (l[i]?.map VoidRank.name).getD "VOID Peasant"

/-- Index (in an arbitrary remaining table) of the first entry whose
threshold the balance meets, or the length when none does. -/
def rankIdxAux : List VoidRank → ℚ → ℕ
  | [], _ => 0
  | r :: rs, balance => if r.threshold ≤ balance then 0 else rankIdxAux rs balance + 1

theorem rankIdxAux_le_length (l : List VoidRank) (b : ℚ) : rankIdxAux l b ≤ l.length := by
  induction l with
  | nil => simp [rankIdxAux]
  | cons r rs ih =>
    simp only [rankIdxAux, List.length_cons]
    split
    · omega
    · omega

theorem rankIdxAux_antitone (l : List VoidRank) (b1 b2 : ℚ) (h : b1 ≤ b2) :
    rankIdxAux l b2 ≤ rankIdxAux l b1 := by
  induction l with
  | nil => simp [rankIdxAux]
  | cons r rs ih =>
    simp only [rankIdxAux]
    by_cases h2 : r.threshold ≤ b2
    · simp [h2]
    · have h1 : ¬ r.threshold ≤ b1 := fun hc => h2 (hc.trans h)
      simp [h1, h2]
      omega

theorem getVoidRankAux_eq_nameAt (l : List VoidRank) (b : ℚ) :
    getVoidRankAux l b = nameAtDefault l (rankIdxAux l b) := by
  induction l with
  | nil => simp [getVoidRankAux, nameAtDefault, rankIdxAux]
  | cons r rs ih =>
    simp only [getVoidRankAux, rankIdxAux]
    split
    · simp [nameAtDefault]
    · simpa [nameAtDefault] using ih

theorem tableIdx_nameAtDefault (i : ℕ) (h : i ≤ 44) :
    tableIdx (nameAtDefault VOID_RANKS i) = min i 43 := by
  interval_cases i <;> rfl

theorem getVoidRankAux_of_below (l : List VoidRank) (b : ℚ)
    (h : ∀ r ∈ l, b < r.threshold) : getVoidRankAux l b = "VOID Peasant" := by
  induction l with
  | nil => rfl
  | cons r rs ih =>
    have hr := h r (List.mem_cons_self r rs)
    simp only [getVoidRankAux, not_le.mpr hr, if_false]
    exact ih fun x hx => h x (List.mem_cons_of_mem r hx)

theorem tableIdx_getVoidRank (b : ℚ) :
    tableIdx (getVoidRank b) = min (rankIdxAux VOID_RANKS b) 43 := by
  have hlen : (VOID_RANKS).length = 44 := by rfl
  have hle : rankIdxAux VOID_RANKS b ≤ 44 := hlen ▸ rankIdxAux_le_length VOID_RANKS b
  rw [getVoidRank, getVoidRankAux_eq_nameAt, tableIdx_nameAtDefault _ hle]

/-- C8 — Rank assignment is monotone: for balances b1 < b2, the table
index of the rank for b2 is at most the table index of the rank for b1
(higher balances never rank lower in the highest-to-lowest table), and any
balance below every threshold (including zero and negative) gets the
default lowest tier "VOID Peasant". -/
theorem rank_monotone :
    (∀ b1 b2 : ℚ, b1 < b2 → tableIdx (getVoidRank b2) ≤ tableIdx (getVoidRank b1)) ∧
    (∀ b : ℚ, (∀ r ∈ VOID_RANKS, b < r.threshold) → getVoidRank b = "VOID Peasant") := by
  constructor
  · intro b1 b2 h
    rw [tableIdx_getVoidRank, tableIdx_getVoidRank]
    exact min_le_min (rankIdxAux_antitone VOID_RANKS b1 b2 h.le) le_rfl
  · intro b h
    exact getVoidRankAux_of_below VOID_RANKS b h

/-- Witness for C8 at concrete balances: 0 < 2500, and a negative balance
is below every threshold, so it gets the default tier. -/
theorem rank_monotone_witness :
    tableIdx (getVoidRank 2500) ≤ tableIdx (getVoidRank 0) ∧
    getVoidRank (-5) = "VOID Peasant" :=
  ⟨rank_monotone.1 0 2500 (by norm_num),
   rank_monotone.2 (-5) (by decide)⟩

/-- C9 — For every rank at position i (0 = highest) in the 44-entry table,
the image selector `2 + round((1 - i/43) * 43)` evaluates to exactly
45 - i: the highest rank maps to image 45, the lowest to image 2, each
rank to a distinct integer in [2, 45] with no rounding collision. -/
theorem jsRound_intCast (n : ℤ) : jsRound ((n : ℚ)) = n := by
  have h0 : ⌊(1/2 : ℚ)⌋ = 0 := by
    rw [Int.floor_eq_zero_iff]
    constructor <;> norm_num
  rw [jsRound, Int.floor_int_add, h0, add_zero]

theorem rank_image_exact :
    ∀ i : ℕ, i < 44 → rankImageNum (nameAtDefault VOID_RANKS i) = 45 - (i : ℤ) := by
  intro i hi
  have hidx : (VOID_RANKS.findIdx fun r => r.name == nameAtDefault VOID_RANKS i) = i := by
    interval_cases i <;> rfl
  have hlen : VOID_RANKS.length = 44 := rfl
  simp only [rankImageNum, hidx, hlen]
  rw [if_neg (by omega)]
  have harg : (1 - (i : ℚ) / ((44 : ℕ) - 1)) * 43 = (((43 - i : ℤ)) : ℚ) := by
    push_cast
    have h43 : ((43 : ℚ)) ≠ 0 := by norm_num
    field_simp
    ring
  rw [harg, jsRound_intCast]
  omega

/-- Witness for C9 at the extremes: the highest rank maps to image 45 and
the lowest to image 2. -/
theorem rank_image_exact_witness :
    rankImageNum (nameAtDefault VOID_RANKS 0) = 45 - (0 : ℤ) ∧
    rankImageNum (nameAtDefault VOID_RANKS 43) = 45 - (43 : ℤ) :=
  ⟨rank_image_exact 0 (by decide), rank_image_exact 43 (by decide)⟩

/- ────────────────────────────────────────────
   src/telegram/buybot.ts — message queue (processQueue)
   ──────────────────────────────────────────── -/

/-- `interface QueuedMessage` from buybot.ts. -/
structure QueuedMessage where
  photo : String
  caption : String
  pin : Bool
deriving DecidableEq

/-- Outcome of one Telegram API call (resolves or throws). -/
inductive SendOutcome
  | ok
  | err
deriving DecidableEq

/-- Outcomes of the (up to four) API calls one `processQueue` delivery can
make: the photo send, the pin after the photo, the fallback text send, and
the pin after the fallback text. -/
structure DeliveryEnv where
  photoSend : SendOutcome
  pinAfterPhoto : SendOutcome
  textSend : SendOutcome
  pinAfterText : SendOutcome
deriving DecidableEq

/-- Number of messages that reach the channel during one `processQueue`
delivery attempt, following the try/catch structure of buybot.ts lines
94-122: the outer try sends the photo and then (for pin-flagged messages)
pins it; ANY exception in that block — including a pin failure after a
successful photo send — lands in the catch, which sends the caption as a
text message and (again for pin-flagged messages) pins that, with the
inner pin/text failure caught and logged by the inner catch. -/
def deliveredMessages (msg : QueuedMessage) (env : DeliveryEnv) : ℕ :=
  match env.photoSend with
  | .ok =>
    if msg.pin then
      match env.pinAfterPhoto with
      | .ok => 1
      | .err =>
        match env.textSend with
        | .ok => 2
        | .err => 1
    else 1
  | .err =>
    match env.textSend with
    | .ok => 1
    | .err => 0

/-- One `processQueue` drain step: `messageQueue.shift()` removes the head
before the try block, so the queue advances regardless of the delivery
outcome; the pair is the remaining queue and the number of messages that
reached the channel. -/
def processQueueStep (queue : List QueuedMessage) (env : DeliveryEnv) :
    List QueuedMessage × ℕ :=
  match queue with
  | [] => ([], 0)
  | m :: rest => (rest, deliveredMessages m env)

/-- C1 counterexample — for a pin-flagged message whose photo send succeeds
and whose pin then fails, the catch block re-sends the caption as text:
two messages reach the channel in one delivery attempt, not at most one,
and the pin failure is not merely logged. -/
theorem delivery_pin_counterexample :
    processQueueStep [⟨"img", "cap", true⟩]
      ⟨SendOutcome.ok, SendOutcome.err, SendOutcome.ok, SendOutcome.ok⟩ = ([], 2) := by
  rfl

/-- C1 (amended) — per delivery attempt: if the photo send fails and the
text fallback succeeds, exactly one message reaches the channel; if both
fail, zero messages reach the channel and the queue still advances to the
next item; if the photo send succeeds and either the message is not
pin-flagged or the pin succeeds, exactly one message is delivered; but for
a pin-flagged message whose photo send succeeds and whose pin fails, the
failure is handled by the same catch as a photo failure, so the text
fallback runs and a second message is delivered whenever it succeeds. -/
theorem delivery_fallback :
    ∀ (m : QueuedMessage) (rest : List QueuedMessage) (env : DeliveryEnv),
    (env.photoSend = .err → env.textSend = .ok →
        processQueueStep (m :: rest) env = (rest, 1)) ∧
    (env.photoSend = .err → env.textSend = .err →
        processQueueStep (m :: rest) env = (rest, 0)) ∧
    (env.photoSend = .ok → (m.pin = false ∨ env.pinAfterPhoto = .ok) →
        processQueueStep (m :: rest) env = (rest, 1)) ∧
    (env.photoSend = .ok → m.pin = true → env.pinAfterPhoto = .err →
        processQueueStep (m :: rest) env =
          (rest, if env.textSend = .ok then 2 else 1)) := by
  intro m rest env
  obtain ⟨p, pp, t, pt⟩ := env
  refine ⟨?_, ?_, ?_, ?_⟩ <;> intro h1 h2 <;> try intro h3
  all_goals
    simp only at h1 h2
  · subst h1; subst h2; cases m; simp [processQueueStep, deliveredMessages]
  · subst h1; subst h2; cases m; simp [processQueueStep, deliveredMessages]
  · subst h1
    rcases h2 with h2 | h2 <;> cases m <;> simp_all [processQueueStep, deliveredMessages]
  · simp only at h3
    subst h1; subst h3; cases m
    simp_all [processQueueStep, deliveredMessages]
    cases t <;> simp

/-- Witness for C1 (amended) at concrete inputs: photo fails and text
succeeds for a non-pinned message with an empty remaining queue. -/
theorem delivery_fallback_witness :
    processQueueStep [⟨"i", "c", false⟩]
      ⟨SendOutcome.err, SendOutcome.ok, SendOutcome.ok, SendOutcome.ok⟩ = ([], 1) :=
  (delivery_fallback ⟨"i", "c", false⟩ []
    ⟨SendOutcome.err, SendOutcome.ok, SendOutcome.ok, SendOutcome.ok⟩).1 rfl rfl

/- ────────────────────────────────────────────
   src/telegram/buybot.ts — price cache (getVoidPrice)
   ──────────────────────────────────────────── -/

/-- The module-level `cachedPrice` slot: `{ usd, solPrice, ts }`. -/
structure PriceCache where
  usd : ℚ
  solPrice : ℚ
  ts : ℤ
deriving DecidableEq

/-- The first trading pair of a DexScreener response (`data.pairs?.[0]`):
`priceUsd` may be absent (in which case the function returns null without
caching) and `priceNative` may be absent (parsed as 0). -/
structure FetchPair where
  priceUsd : Option ℚ
  priceNative : Option ℚ
deriving DecidableEq

/-- One call to `getVoidPrice` (buybot.ts lines 135-157), with the ambient
state made explicit: `now` is `Date.now()`, `cache` the current
`cachedPrice` slot, and `fetched` what the external fetch would yield on
this call (`none` models both a thrown fetch error and a response with no
pairs). Returns the value given to the caller, the new cache slot, and
whether an external fetch was performed. -/
def getVoidPrice (now : ℤ) (cache : Option PriceCache) (fetched : Option FetchPair) :
    Option (ℚ × ℚ) × Option PriceCache × Bool :=
  match cache with
  | some c =>
    if now - c.ts < 30000 then (some (c.usd, c.solPrice), some c, false)
    else
      match fetched with
      | none => (none, cache, true)
      | some pair =>
        match pair.priceUsd with
        | none => (none, cache, true)
        | some u => (some (u, pair.priceNative.getD 0), some ⟨u, pair.priceNative.getD 0, now⟩, true)
  | none =>
    match fetched with
    | none => (none, cache, true)
    | some pair =>
      match pair.priceUsd with
      | none => (none, cache, true)
      | some u => (some (u, pair.priceNative.getD 0), some ⟨u, pair.priceNative.getD 0, now⟩, true)

/-- C6 — price-cache freshness: a call less than 30 seconds after a
snapshot was captured returns exactly the cached pair, leaves the cache
unchanged and performs no fetch; in particular a successful fetch at t1
followed by a call at t2 with t2 - t1 < 30000 returns the identical
values fetch-free. A call with the snapshot 30 seconds old or older
performs exactly one refetch whose result — not the stale snapshot — is
returned: the value handed to the caller is the same as if there were no
cache at all. -/
theorem price_cache_freshness :
    (∀ (now : ℤ) (c : PriceCache) (fetched : Option FetchPair),
      now - c.ts < 30000 →
        getVoidPrice now (some c) fetched = (some (c.usd, c.solPrice), some c, false)) ∧
    (∀ (t1 t2 : ℤ) (u s : ℚ) (fetched : Option FetchPair),
      t2 - t1 < 30000 →
        getVoidPrice t2 (getVoidPrice t1 none (some ⟨some u, some s⟩)).2.1 fetched =
          (some (u, s), some ⟨u, s, t1⟩, false)) ∧
    (∀ (now : ℤ) (c : PriceCache) (fetched : Option FetchPair),
      30000 ≤ now - c.ts →
        (getVoidPrice now (some c) fetched).2.2 = true ∧
        (getVoidPrice now (some c) fetched).1 = (getVoidPrice now none fetched).1) := by
  refine ⟨?_, ?_, ?_⟩
  · intro now c fetched h
    simp [getVoidPrice, h]
  · intro t1 t2 u s fetched h
    simp only [getVoidPrice, Option.getD]
    rw [if_pos (by omega)]
  · intro now c fetched h
    have hn : ¬ (now - c.ts < 30000) := by omega
    cases fetched with
    | none => simp [getVoidPrice, hn]
    | some pair =>
      cases hu : pair.priceUsd with
      | none => simp [getVoidPrice, hn, hu]
      | some u => simp [getVoidPrice, hn, hu]

/-- Witness for C6 at concrete times: snapshot captured at t = 0, second
call at t = 10000 (fresh, served from cache), third situation at
t = 30000 (stale, refetched). -/
theorem price_cache_freshness_witness :
    getVoidPrice 10000 (getVoidPrice 0 none (some ⟨some 5, some 7⟩)).2.1 none =
      (some (5, 7), some ⟨5, 7, 0⟩, false) ∧
    (getVoidPrice 30000 (some ⟨5, 7, 0⟩) none).2.2 = true :=
  ⟨price_cache_freshness.2.1 0 10000 5 7 none (by norm_num),
   (price_cache_freshness.2.2 30000 ⟨5, 7, 0⟩ none (by norm_num)).1⟩

/- ────────────────────────────────────────────
   src/telegram/buybot.ts — transaction dedup (markProcessed)
   ──────────────────────────────────────────── -/

/-- `MAX_PROCESSED` from buybot.ts. -/
def MAX_PROCESSED : ℕ := 2000

/-- `markProcessed` from buybot.ts, with the module-level `processedTxs`
set made explicit. A JavaScript `Set` iterates in insertion order, so it
is modelled as an insertion-ordered duplicate-free list (oldest first):
membership returns false and leaves the set untouched; otherwise, at
capacity, `processedTxs.values().next().value` is the oldest entry and
`if (first)` deletes it — note that this truthiness test also fails when
the oldest entry is the empty string, in which case nothing is deleted;
finally the new signature is appended. -/
def markProcessed (sig : String) (processedTxs : List String) : Bool × List String :=
  if sig ∈ processedTxs then (false, processedTxs)
  else
    let afterEvict :=
      if MAX_PROCESSED ≤ processedTxs.length then
        match processedTxs.head? with
        | some first => if first = "" then processedTxs else processedTxs.drop 1
        | none => processedTxs
      else processedTxs
    (true, afterEvict ++ [sig])

/-- State transition of one `markProcessed` call. -/
def dedupStep (st : List String) (sig : String) : List String :=
  (markProcessed sig st).2

/-- The dedup window after feeding a whole sequence of signatures to
`markProcessed`, starting from the empty set. -/
def runDedup (sigs : List String) : List String :=
  sigs.foldl dedupStep []

theorem markProcessed_seen (sig : String) (st : List String) (h : sig ∈ st) :
    markProcessed sig st = (false, st) := by
  simp only [markProcessed]
  rw [if_pos h]

theorem markProcessed_fresh_fst (sig : String) (st : List String) (h : sig ∉ st) :
    (markProcessed sig st).1 = true := by
  simp only [markProcessed]
  rw [if_neg h]

theorem markProcessed_fresh_noevict (sig : String) (st : List String)
    (h1 : sig ∉ st) (h2 : st.length < 2000) :
    markProcessed sig st = (true, st ++ [sig]) := by
  simp only [markProcessed, MAX_PROCESSED]
  rw [if_neg h1, if_neg (by omega)]

theorem markProcessed_fresh_evict (sig first : String) (rest : List String)
    (h1 : sig ∉ first :: rest) (h2 : 2000 ≤ (first :: rest).length) (h3 : first ≠ "") :
    markProcessed sig (first :: rest) = (true, rest ++ [sig]) := by
  simp only [markProcessed, MAX_PROCESSED]
  rw [if_neg h1, if_pos h2]
  simp [h3]

theorem markProcessed_fresh_emptyHead (sig : String) (rest : List String)
    (h1 : sig ∉ "" :: rest) (h2 : 2000 ≤ ("" :: rest).length) :
    markProcessed sig ("" :: rest) = (true, ("" :: rest) ++ [sig]) := by
  simp only [markProcessed, MAX_PROCESSED]
  rw [if_neg h1, if_pos h2]
  simp

theorem foldl_dedup_fresh :
    ∀ (sigs st : List String), sigs.Nodup → (∀ s ∈ sigs, s ∉ st) →
      st.length + sigs.length ≤ 2000 → List.foldl dedupStep st sigs = st ++ sigs := by
  intro sigs
  induction sigs with
  | nil => intro st _ _ _; simp
  | cons s rest ih =>
    intro st hnd hfresh hlen
    have hs : s ∉ st := hfresh s (List.mem_cons_self s rest)
    have hlt : st.length < 2000 := by
      simp only [List.length_cons] at hlen
      omega
    have hstep : dedupStep st s = st ++ [s] := by
      simp only [dedupStep]
      rw [markProcessed_fresh_noevict s st hs hlt]
    have hfresh2 : ∀ x ∈ rest, x ∉ st ++ [s] := by
      intro x hx
      simp only [List.mem_append, List.mem_singleton]
      rintro (h1 | h1)
      · exact hfresh x (List.mem_cons_of_mem s hx) h1
      · exact (List.nodup_cons.mp hnd).1 (h1 ▸ hx)
    have hlen2 : (st ++ [s]).length + rest.length ≤ 2000 := by
      simp only [List.length_append, List.length_singleton, List.length_cons,
        List.length_nil] at *
      omega
    calc List.foldl dedupStep st (s :: rest)
        = List.foldl dedupStep (st ++ [s]) rest := by rw [List.foldl_cons, hstep]
      _ = (st ++ [s]) ++ rest := ih (st ++ [s]) (List.nodup_cons.mp hnd).2 hfresh2 hlen2
      _ = st ++ s :: rest := by simp

/-- C3 counterexample — the capacity bound fails when the oldest entry is
the empty string: feed `markProcessed` the empty string first, then 1999
distinct signatures (window now full at 2000), then one more fresh
signature. Because `if (first)` is falsy for the empty string, nothing is
evicted: the window grows to 2001 entries and the first-inserted
signature is still present. -/
theorem dedup_cap_counterexample :
    (runDedup ("" :: (List.range 1999).map (fun n => String.mk (List.replicate (n+1) 'a')))).length = 2000 ∧
    ((markProcessed (String.mk (List.replicate 2001 'a'))
        (runDedup ("" :: (List.range 1999).map (fun n => String.mk (List.replicate (n+1) 'a'))))).2).length = 2001 ∧
    "" ∈ (markProcessed (String.mk (List.replicate 2001 'a'))
        (runDedup ("" :: (List.range 1999).map (fun n => String.mk (List.replicate (n+1) 'a'))))).2 := by
  have hlenmk : ∀ (l : List Char), (String.mk l).length = l.length := fun l => rfl
  have hmkinj : ∀ (n m : ℕ),
      String.mk (List.replicate n 'a') = String.mk (List.replicate m 'a') → n = m := by
    intro n m h
    have := congrArg String.length h
    simpa [hlenmk] using this
  have hempty : ∀ n : ℕ, String.mk (List.replicate (n+1) 'a') ≠ "" := by
    intro n h
    have := congrArg String.length h
    simp [hlenmk] at this
  have hnodup : ("" :: (List.range 1999).map (fun n => String.mk (List.replicate (n+1) 'a'))).Nodup := by
    rw [List.nodup_cons]
    constructor
    · simp only [List.mem_map]
      rintro ⟨n, _, h⟩
      exact hempty n h
    · refine List.Nodup.map ?_ (List.nodup_range 1999)
      intro a b h
      have := hmkinj (a+1) (b+1) h
      omega
  have hrun : runDedup ("" :: (List.range 1999).map (fun n => String.mk (List.replicate (n+1) 'a')))
      = "" :: (List.range 1999).map (fun n => String.mk (List.replicate (n+1) 'a')) := by
    have := foldl_dedup_fresh
      ("" :: (List.range 1999).map (fun n => String.mk (List.replicate (n+1) 'a'))) []
      hnodup (by simp) (by simp)
    simpa [runDedup] using this
  have hlen : ("" :: (List.range 1999).map (fun n => String.mk (List.replicate (n+1) 'a'))).length = 2000 := by
    simp
  have hfresh : String.mk (List.replicate 2001 'a')
      ∉ "" :: (List.range 1999).map (fun n => String.mk (List.replicate (n+1) 'a')) := by
    simp only [List.mem_cons, List.mem_map]
    rintro (h | ⟨n, hn, h⟩)
    · exact hempty 2000 h
    · have := hmkinj (n+1) 2001 h
      simp [List.mem_range] at hn
      omega
  have hmark := markProcessed_fresh_emptyHead (String.mk (List.replicate 2001 'a'))
    ((List.range 1999).map (fun n => String.mk (List.replicate (n+1) 'a')))
    hfresh (by rw [hlen])
  rw [hrun, hmark]
  refine ⟨hlen, ?_, ?_⟩
  · simp
  · simp

/-- C3 (amended) — provided the empty string never enters the window, the
dedup window behaves as claimed: starting empty, after 2001 distinct
nonempty signatures the window is exactly the 2000 most recent in
insertion order (the first-inserted signature was evicted); the evicted
first signature, if presented again, is treated as unseen (markProcessed
returns true); each of the 2000 retained signatures is still seen —
markProcessed returns false and leaves the window unchanged, without
promotion; every single step from a window of at most 2000 entries none
of which is the empty string yields a window of at most 2000 entries; and
re-observing any in-window signature never changes the window. -/
theorem dedup_fifo (s0 slast : String) (mid : List String)
    (hlen : mid.length = 1999)
    (hnd : (s0 :: mid).Nodup)
    (hlast : slast ∉ s0 :: mid)
    (hne : ∀ s ∈ s0 :: mid ++ [slast], s ≠ "") :
    runDedup (s0 :: mid ++ [slast]) = mid ++ [slast] ∧
    (markProcessed s0 (runDedup (s0 :: mid ++ [slast]))).1 = true ∧
    (∀ s ∈ mid ++ [slast],
      markProcessed s (runDedup (s0 :: mid ++ [slast])) =
        (false, runDedup (s0 :: mid ++ [slast]))) ∧
    (∀ (st : List String) (sig : String), st.length ≤ 2000 → "" ∉ st →
      ((markProcessed sig st).2).length ≤ 2000) ∧
    (∀ (st : List String) (sig : String), sig ∈ st → markProcessed sig st = (false, st)) := by
  have hs0 : s0 ≠ "" := hne s0 (List.mem_cons_self _ _)
  have hrun : runDedup (s0 :: mid ++ [slast]) = mid ++ [slast] := by
    have hsplit : s0 :: mid ++ [slast] = (s0 :: mid) ++ [slast] := by simp
    have hpre : List.foldl dedupStep [] (s0 :: mid) = s0 :: mid := by
      have := foldl_dedup_fresh (s0 :: mid) [] hnd (by simp) (by simp [hlen])
      simpa using this
    have hlen2 : 2000 ≤ (s0 :: mid).length := by simp [hlen]
    rw [runDedup, hsplit, List.foldl_append, hpre]
    simp only [List.foldl_cons, List.foldl_nil, dedupStep]
    rw [markProcessed_fresh_evict slast s0 mid hlast hlen2 hs0]
  refine ⟨hrun, ?_, ?_, ?_, ?_⟩
  · rw [hrun]
    refine markProcessed_fresh_fst s0 (mid ++ [slast]) ?_
    simp only [List.mem_append, List.mem_singleton]
    rintro (h | h)
    · exact (List.nodup_cons.mp hnd).1 h
    · exact hlast (h ▸ List.mem_cons_self s0 mid)
  · intro s hs
    rw [hrun]
    exact markProcessed_seen s (mid ++ [slast]) hs
  · intro st sig hcap hnemem
    by_cases hmem : sig ∈ st
    · rw [markProcessed_seen sig st hmem]
      exact hcap
    · by_cases hfull : 2000 ≤ st.length
      · match st, hfull with
        | first :: rest, hfull =>
          have hf : first ≠ "" := by
            intro h
            exact hnemem (h ▸ List.mem_cons_self first rest)
          rw [markProcessed_fresh_evict sig first rest hmem hfull hf]
          simp only [List.length_append, List.length_singleton]
          simp only [List.length_cons] at hcap
          omega
      · rw [markProcessed_fresh_noevict sig st hmem (by omega)]
        simp only [List.length_append, List.length_singleton]
        omega
  · intro st sig h
    exact markProcessed_seen sig st h

/-- A family of concrete pairwise-distinct nonempty signatures used to
instantiate the dedup theorems. -/
def wfSig (n : ℕ) : String := String.mk (List.replicate (n+1) 'a')

theorem wfSig_inj (n m : ℕ) (h : wfSig n = wfSig m) : n = m := by
  have := congrArg String.length h
  simpa [wfSig, String.length] using this

theorem wfSig_ne_empty (n : ℕ) : wfSig n ≠ "" := by
  intro h
  have := congrArg String.length h
  simp [wfSig, String.length] at this

/-- Witness for C3 (amended): the first of 2001 concrete distinct nonempty
signatures is treated as unseen again after all 2001 have been inserted. -/
theorem dedup_fifo_witness :
    (markProcessed (wfSig 0)
      (runDedup (wfSig 0 :: (List.range 1999).map (fun n => wfSig (n+1)) ++ [wfSig 2000]))).1 = true :=
  (dedup_fifo (wfSig 0) (wfSig 2000) ((List.range 1999).map (fun n => wfSig (n+1)))
    (by simp)
    (by
      rw [List.nodup_cons]
      constructor
      · simp only [List.mem_map]
        rintro ⟨n, _, h⟩
        have := wfSig_inj (n+1) 0 h
        omega
      · refine List.Nodup.map ?_ (List.nodup_range 1999)
        intro a b h
        have := wfSig_inj (a+1) (b+1) h
        omega)
    (by
      simp only [List.mem_cons, List.mem_map]
      rintro (h | ⟨n, hn, h⟩)
      · have := wfSig_inj 2000 0 h
        omega
      · have := wfSig_inj (n+1) 2000 h
        simp [List.mem_range] at hn
        omega)
    (by
      intro s hs
      simp only [List.cons_append, List.mem_cons, List.mem_append, List.mem_map,
        List.mem_singleton] at hs
      rcases hs with h | ⟨n, _, h⟩ | h | h
      · exact h ▸ wfSig_ne_empty 0
      · exact h ▸ wfSig_ne_empty (n+1)
      · exact h ▸ wfSig_ne_empty 2000
      · simp at h)).2.1

/- ────────────────────────────────────────────
   src/telegram/buybot.ts — poll loop backoff (pollLoop)
   ──────────────────────────────────────────── -/

/-- How one poll cycle ended: `pollForSwaps` resolved, threw a 429
rate-limit error, or threw some other error. -/
inductive PollOutcome
  | success
  | rateLimited
  | otherError
deriving DecidableEq

/-- Initial value of the module-level `backoff` variable (`let backoff = 1000`). -/
def initialBackoff : ℕ := 1000

/-- Default `BASE_INTERVAL` (BUYBOT_POLL_MS, 30000 ms). -/
def BASE_INTERVAL : ℤ := 30000

/-- The backoff update of `pollLoop` (buybot.ts lines 558-569): reset to
1000 on success, `min(backoff * 2, 60000)` on a 429, unchanged on any
other error. -/
def nextBackoff (backoff : ℕ) : PollOutcome → ℕ
  | .success => 1000
  | .rateLimited => min (backoff * 2) 60000
  | .otherError => backoff

/-- The scheduling delay of `pollLoop` (line 572):
`Math.max(0, BASE_INTERVAL - elapsed) + (backoff > 1000 ? backoff : 0)`,
computed with the already-updated backoff value. -/
def pollDelay (backoff : ℕ) (elapsed : ℤ) : ℤ :=
  max 0 (BASE_INTERVAL - elapsed) + (if 1000 < backoff then (backoff : ℤ) else 0)

/-- C7 — backoff policy: the counter starts at 1s; on a 429 it doubles and
is capped at 60s, and (for any current counter of at least its initial
1s) the updated counter then exceeds 1s so the next cycle's extra delay
equals exactly that counter; on a successful cycle the counter resets to
1s from EVERY current value (a fully backed-off 60s counter included)
and contributes no extra delay, so the next cycle is scheduled at
max(0, baseline - elapsed); and for every counter value the scheduled
delay is never shorter than max(0, baseline - elapsed), the delay of a
cycle without backoff. -/
theorem backoff_policy :
    initialBackoff = 1000 ∧
    (∀ backoff : ℕ, 1000 ≤ backoff →
      nextBackoff backoff .rateLimited = min (backoff * 2) 60000 ∧
      nextBackoff backoff .rateLimited ≤ 60000 ∧
      (∀ elapsed : ℤ, pollDelay (nextBackoff backoff .rateLimited) elapsed =
        max 0 (BASE_INTERVAL - elapsed) + (nextBackoff backoff .rateLimited : ℤ))) ∧
    (∀ (backoff : ℕ) (elapsed : ℤ), nextBackoff backoff .success = 1000 ∧
      pollDelay (nextBackoff backoff .success) elapsed = max 0 (BASE_INTERVAL - elapsed)) ∧
    (∀ (backoff : ℕ) (elapsed : ℤ), max 0 (BASE_INTERVAL - elapsed) ≤ pollDelay backoff elapsed) := by
  refine ⟨rfl, ?_, ?_, ?_⟩
  · intro backoff hb
    refine ⟨rfl, Nat.min_le_right _ _, ?_⟩
    intro elapsed
    have hgt : 1000 < nextBackoff backoff .rateLimited := by
      simp only [nextBackoff]
      omega
    simp [pollDelay, hgt]
  · intro backoff elapsed
    refine ⟨rfl, ?_⟩
    simp [pollDelay, nextBackoff]
  · intro backoff elapsed
    simp only [pollDelay]
    split
    · have : (0 : ℤ) ≤ (backoff : ℤ) := Int.natCast_nonneg backoff
      omega
    · simp

/-- Witness for C7 at concrete cycles: backoff 1000 hit by a 429 becomes
2000 and adds exactly 2000 ms beyond the baseline gap; a success at the
fully backed-off counter 60000 resets it to 1000 with no extra delay. -/
theorem backoff_policy_witness :
    nextBackoff 1000 .rateLimited = min (1000 * 2) 60000 ∧
    pollDelay (nextBackoff 1000 .rateLimited) 5000 =
      max 0 (BASE_INTERVAL - 5000) + (nextBackoff 1000 .rateLimited : ℤ) ∧
    nextBackoff 60000 .success = 1000 ∧
    pollDelay (nextBackoff 60000 .success) 5000 = max 0 (BASE_INTERVAL - 5000) :=
  ⟨(backoff_policy.2.1 1000 (by norm_num)).1,
   (backoff_policy.2.1 1000 (by norm_num)).2.2 5000,
   (backoff_policy.2.2.1 60000 5000).1,
   (backoff_policy.2.2.1 60000 5000).2⟩

/- ────────────────────────────────────────────
   src/telegram/buybot.ts — transaction classification (processTransaction)
   ──────────────────────────────────────────── -/

/-- One entry of `preTokenBalances` / `postTokenBalances` of a parsed
transaction: account index, mint, owning address (optional in the RPC
type) and the decimal token amount (`uiTokenAmount.uiAmount`, nullable). -/
structure TokenBalance where
  accountIndex : ℕ
  mint : String
  owner : Option String
  uiAmount : Option ℚ
deriving DecidableEq

/-- The pieces of a fetched parsed transaction that `processTransaction`
reads: the two balance snapshots, the instruction log lines, and the fee
payer (`tx.transaction.message.accountKeys[0].pubkey`). -/
structure ParsedTx where
  preTokenBalances : List TokenBalance
  postTokenBalances : List TokenBalance
  logMessages : List String
  feePayer : String
deriving DecidableEq

/-- The classification outcome of one transaction: the `handleBurn` /
`handleBuy` call made by `processTransaction`, or none. The burn actor is
optional because branch C passes `preBal.owner!` straight through, which
at runtime is undefined when the balance entry has no owner. -/
inductive TxEvent
  | burn (signature : String) (actor : Option String) (amount : ℚ)
  | buy (signature : String) (buyer : String) (amount : ℚ) (buyerBalance : ℚ)
deriving DecidableEq

def INCINERATOR : String := "1nc1nerator11111111111111111111111111111111"

def DEAD_ADDRESS : String := "11111111111111111111111111111111"

def HELPER_WALLET : String := "CEJnLWLEzRGSaeaoWKVSnhA4QD4mZaRY9sQbz4NNfyLz"

def METEORA_POOL_W_VOID : String := "6rE8Ej3aae9QBukLYWFvzDAYmRgsygpKK1LbqLjHJGcL"

def METEORA_POOL_P_VOID : String := "5jW3M4defHZgCAt27FQU7upeELu5yWroiax9nmd2Bv62"

/-- `POOLS = [POOL_ID, METEORA_POOL_W_VOID, METEORA_POOL_P_VOID]`; the
Raydium pool id is environment-supplied, so it stays a parameter. -/
def POOLS (poolId : String) : List String :=
  [poolId, METEORA_POOL_W_VOID, METEORA_POOL_P_VOID]

/-- The `x?.uiTokenAmount?.uiAmount ?? 0` pattern applied to the result of
a `find`: a missing entry or a null amount both read as 0. -/
def amountOf (b : Option TokenBalance) : ℚ :=
  match b with
  | some bb => bb.uiAmount.getD 0
  | none => 0

/-- Is the first character list a prefix of the second. -/
def listPrefix : List Char → List Char → Bool
  | [], _ => true
  | _ :: _, [] => false
  | a :: as, b :: bs => a == b && listPrefix as bs

/-- Does the pattern (second argument) occur inside the text (first
argument): it is a prefix of some suffix of the text. -/
def hasSub : List Char → List Char → Bool
  | _, [] => true
  | [], _ :: _ => false
  | t :: ts, p :: ps => listPrefix (p :: ps) (t :: ts) || hasSub ts (p :: ps)

/-- JavaScript `String.prototype.includes`, on the character lists of the
two strings. -/
def containsSub (s pat : String) : Bool :=
  hasSub s.data pat.data

/-- Line 285: does any log line mention a burn instruction. -/
def isBurnLog (logs : List String) : Bool :=
  logs.any fun l => containsSub l "Instruction: Burn" || containsSub l "BurnChecked"

/-- Branch 1.B of `processTransaction` (lines 288-310): explicit transfer
to the incinerator/dead address. The loop returns on the first dead-owned
tracked-mint entry whose balance gained; the sender is the first
tracked-mint account whose loss matches the gain within 0.001, else the
burn is attributed to "Unknown". -/
def deadTransferBurn (voidMint sig : String) (pre post : List TokenBalance) : Option TxEvent :=
  let deadTransfers := post.filter fun b =>
    decide ((b.owner = some INCINERATOR ∨ b.owner = some DEAD_ADDRESS) ∧ b.mint = voidMint)
  deadTransfers.findSome? fun trans =>
    let preB := pre.find? fun p => decide (p.accountIndex = trans.accountIndex)
    let gain := trans.uiAmount.getD 0 - amountOf preB
    if 0 < gain then
      let sender := pre.find? fun p =>
        let postB := post.find? fun b => decide (b.accountIndex = p.accountIndex)
        let loss := p.uiAmount.getD 0 - amountOf postB
        decide (p.mint = voidMint ∧ |loss - gain| < 1/1000)
      let burner := match sender with
        | some sb => match sb.owner with
          | some o => if o = "" then "Unknown" else o
          | none => "Unknown"
        | none => "Unknown"
      some (.burn sig (some burner) gain)
    else none

/-- Branch 1.C of `processTransaction` (lines 314-334): a burn-marked
transaction. The loop returns on the first tracked-mint pre-balance entry
that lost tokens and for which the pool did not absorb at least 90% of
the loss. Note `poolBal` / `poolPre` are looked up by owner alone — the
first balance entry owned by `POOL_ID`, whatever its mint. -/
def logBurn (voidMint poolId sig : String) (pre post : List TokenBalance) : Option TxEvent :=
  pre.findSome? fun preBal =>
    if preBal.mint = voidMint then
      let postB := post.find? fun b => decide (b.accountIndex = preBal.accountIndex)
      let loss := preBal.uiAmount.getD 0 - amountOf postB
      if 0 < loss then
        let poolBal := post.find? fun b => decide (b.owner = some poolId)
        let poolPre := pre.find? fun p => decide (p.owner = some poolId)
        let poolGain := amountOf poolBal - amountOf poolPre
        if poolGain < loss * (9/10) then some (.burn sig preBal.owner loss) else none
      else none
    else none

/-- Accumulator of the buy-detection sweep (lines 342-367). -/
structure BuySweep where
  totalBought : ℚ
  buyer : String
  maxBuyerBalance : ℚ
  isTrade : Bool
deriving DecidableEq

/-- One iteration of the buy-detection sweep over a post-balance entry:
skip other mints; a negative delta from a pool-owned account or one whose
owner string is shorter than 44 characters (PDA heuristic) accumulates
into `totalBought` and marks the transaction a trade; a positive delta
whose resulting amount beats the current maximum makes that account's
owner the attributed buyer (`postBal.owner || buyer` keeps the previous
buyer when the owner is absent or the empty string). -/
def buyStep (voidMint poolId : String) (pre : List TokenBalance) (acc : BuySweep)
    (postBal : TokenBalance) : BuySweep :=
  if postBal.mint = voidMint then
    let preB := pre.find? fun p => decide (p.accountIndex = postBal.accountIndex)
    let delta := postBal.uiAmount.getD 0 - amountOf preB
    if delta < 0 then
      let isPool := (POOLS poolId).any (fun p => decide (postBal.owner = some p)) ||
        (match postBal.owner with
          | some o => decide (o.length < 44)
          | none => false)
      if isPool then
        { acc with totalBought := acc.totalBought + |delta|, isTrade := true }
      else acc
    else if 0 < delta then
      match postBal.uiAmount with
      | some amt =>
        if acc.maxBuyerBalance < amt then
          { acc with
            maxBuyerBalance := amt,
            buyer := match postBal.owner with
              | some o => if o = "" then acc.buyer else o
              | none => acc.buyer }
        else acc
      | none => acc
    else acc
  else acc

/-- `processTransaction` from buybot.ts, as a classification function: the
dead-address branch fires first, then (under a burn log marker) the
supply-decrease branch, then the buy sweep with its trade/dust/helper
guard. -/
def processTransaction (voidMint poolId sig : String) (tx : ParsedTx) : Option TxEvent :=
  let pre := tx.preTokenBalances
  let post := tx.postTokenBalances
  match deadTransferBurn voidMint sig pre post with
  | some e => some e
  | none =>
    match (if isBurnLog tx.logMessages then logBurn voidMint poolId sig pre post else none) with
    | some e => some e
    | none =>
      let acc := post.foldl (buyStep voidMint poolId pre) ⟨0, tx.feePayer, 0, false⟩
      if acc.isTrade = true ∧ 1/100 < acc.totalBought ∧ acc.buyer ≠ HELPER_WALLET then
        some (.buy sig acc.buyer acc.totalBought acc.maxBuyerBalance)
      else none

/- ────────────────────────────────────────────
   C2: burn-vs-sell disambiguation and the pool mint filter
   ──────────────────────────────────────────── -/

/-- A 44-character wallet-looking owner address. -/
def WALLET_A : String := "WaaaaaaaaaaaaaaaaaaaaaaaaaaaaaaaaaaaaaaaaaaW"

/-- A burn-marked transaction in which the wallet loses 100 tracked
tokens, the pool gains nothing in the tracked mint, and the pool's only
balance entry is its wSOL side (+95). -/
def txBurnWsolFirst : ParsedTx :=
  ⟨[⟨1, "VMINT", some WALLET_A, some 100⟩, ⟨2, "WSOL", some "POOL", some 0⟩],
   [⟨1, "VMINT", some WALLET_A, some 0⟩, ⟨2, "WSOL", some "POOL", some 95⟩],
   ["Program log: Instruction: Burn"], "PAYER"⟩

/-- A burn-marked transaction: wallet loses 100 tracked tokens, the pool's
tracked-mint account gains only 10 of them. -/
def txBurnPoolGain10 : ParsedTx :=
  ⟨[⟨1, "VMINT", some WALLET_A, some 100⟩, ⟨2, "VMINT", some "POOL", some 0⟩],
   [⟨1, "VMINT", some WALLET_A, some 0⟩, ⟨2, "VMINT", some "POOL", some 10⟩],
   ["Program log: Instruction: Burn"], "PAYER"⟩

/-- A burn-marked transaction: wallet loses 100 tracked tokens, the pool's
tracked-mint account absorbs 99 of them (an ordinary sell). -/
def txSellPoolGain99 : ParsedTx :=
  ⟨[⟨1, "VMINT", some WALLET_A, some 100⟩, ⟨2, "VMINT", some "POOL", some 0⟩],
   [⟨1, "VMINT", some WALLET_A, some 0⟩, ⟨2, "VMINT", some "POOL", some 99⟩],
   ["Program log: Instruction: Burn"], "PAYER"⟩

/-- Modelled from the spec (4.2, burn rule 2): "Compute the tracked
liquidity pool's own poolGain = poolPost - poolPre *for the same mint*".
The code's `logBurn` looks the pool entries up by owner alone; this
definition follows the spec's words — pool-owned entries holding the
tracked mint — for comparison with the code. -/
def specPoolGain (voidMint poolId : String) (pre post : List TokenBalance) : ℚ :=
  amountOf (post.find? fun b => decide (b.owner = some poolId ∧ b.mint = voidMint)) -
  amountOf (pre.find? fun p => decide (p.owner = some poolId ∧ p.mint = voidMint))

/-- C2 — the burn/sell disambiguation matches the claim only when the
pool's first-found balance entry holds the tracked mint. In
`txBurnWsolFirst` the wallet loses 100 tracked tokens, the pool's
tracked-mint gain is 0 (0 < 100·0.9, so the claim requires a Burn of
100), yet the code computes `poolGain` from the pool's first entry of ANY
mint — here the wSOL side, +95 — so 95 < 90 fails and no event at all is
emitted. The companion cases show the claim's own two instances do hold
when the pool's only entry is the tracked mint: gain 10 of 100 yields
Burn(wallet, 100), gain 99 of 100 yields no burn. -/
theorem burn_pool_mint_bug :
    processTransaction "VMINT" "POOL" "SIG1" txBurnWsolFirst = none ∧
    specPoolGain "VMINT" "POOL" txBurnWsolFirst.preTokenBalances
      txBurnWsolFirst.postTokenBalances = 0 ∧
    specPoolGain "VMINT" "POOL" txBurnWsolFirst.preTokenBalances
      txBurnWsolFirst.postTokenBalances < 100 * (9/10) ∧
    processTransaction "VMINT" "POOL" "SIG1" txBurnPoolGain10
      = some (TxEvent.burn "SIG1" (some WALLET_A) 100) ∧
    processTransaction "VMINT" "POOL" "SIG1" txSellPoolGain99 = none := by
  have hspec : specPoolGain "VMINT" "POOL" txBurnWsolFirst.preTokenBalances
      txBurnWsolFirst.postTokenBalances = 0 := by
    simp [specPoolGain, txBurnWsolFirst, amountOf, WALLET_A]
  have htx1 : processTransaction "VMINT" "POOL" "SIG1" txBurnWsolFirst = none := by
    have hdead : deadTransferBurn "VMINT" "SIG1"
        txBurnWsolFirst.preTokenBalances txBurnWsolFirst.postTokenBalances = none := by
      simp [txBurnWsolFirst, deadTransferBurn, WALLET_A, INCINERATOR, DEAD_ADDRESS]
    have hpost : List.find? (fun b => decide (b.owner = some "POOL"))
        txBurnWsolFirst.postTokenBalances = some ⟨2, "WSOL", some "POOL", some 95⟩ := by
      simp [txBurnWsolFirst, WALLET_A]
    have hpre : List.find? (fun p => decide (p.owner = some "POOL"))
        txBurnWsolFirst.preTokenBalances = some ⟨2, "WSOL", some "POOL", some 0⟩ := by
      simp [txBurnWsolFirst, WALLET_A]
    have hlb : logBurn "VMINT" "POOL" "SIG1"
        txBurnWsolFirst.preTokenBalances txBurnWsolFirst.postTokenBalances = none := by
      simp only [txBurnWsolFirst] at hpost hpre ⊢
      simp only [logBurn, amountOf, hpost, hpre]
      norm_num [WALLET_A]
    have hfind1 : List.find? (fun p => decide (p.accountIndex = 1))
        txBurnWsolFirst.preTokenBalances = some ⟨1, "VMINT", some WALLET_A, some 100⟩ := by
      simp [txBurnWsolFirst]
    have hfind2 : List.find? (fun p => decide (p.accountIndex = 2))
        txBurnWsolFirst.preTokenBalances = some ⟨2, "WSOL", some "POOL", some 0⟩ := by
      simp [txBurnWsolFirst]
    simp only [processTransaction, txBurnWsolFirst] at hdead hlb ⊢
    simp only [hdead, hlb]
    have hlog : isBurnLog ["Program log: Instruction: Burn"] = true := by decide
    simp only [hlog, if_pos]
    simp only [txBurnWsolFirst] at hfind1 hfind2
    simp only [List.foldl_cons, List.foldl_nil, buyStep, amountOf, hfind1, hfind2, POOLS]
    norm_num [WALLET_A, METEORA_POOL_W_VOID, METEORA_POOL_P_VOID, HELPER_WALLET,
      show ¬ (("WaaaaaaaaaaaaaaaaaaaaaaaaaaaaaaaaaaaaaaaaaaW" : String) = "POOL") by decide,
      show ¬ (("WaaaaaaaaaaaaaaaaaaaaaaaaaaaaaaaaaaaaaaaaaaW" : String) = "6rE8Ej3aae9QBukLYWFvzDAYmRgsygpKK1LbqLjHJGcL") by decide,
      show ¬ (("WaaaaaaaaaaaaaaaaaaaaaaaaaaaaaaaaaaaaaaaaaaW" : String) = "5jW3M4defHZgCAt27FQU7upeELu5yWroiax9nmd2Bv62") by decide,
      show ¬ (("WaaaaaaaaaaaaaaaaaaaaaaaaaaaaaaaaaaaaaaaaaaW" : String).length < 44) by decide,
      show ¬ (("WSOL" : String) = "VMINT") by decide,
      show ¬ (("POOL" : String) = "") by decide]
  have htx2 : processTransaction "VMINT" "POOL" "SIG1" txBurnPoolGain10
      = some (TxEvent.burn "SIG1" (some WALLET_A) 100) := by
    have hdead : deadTransferBurn "VMINT" "SIG1"
        txBurnPoolGain10.preTokenBalances txBurnPoolGain10.postTokenBalances = none := by
      simp [txBurnPoolGain10, deadTransferBurn, WALLET_A, INCINERATOR, DEAD_ADDRESS]
    have hpost : List.find? (fun b => decide (b.owner = some "POOL"))
        txBurnPoolGain10.postTokenBalances = some ⟨2, "VMINT", some "POOL", some 10⟩ := by
      simp [txBurnPoolGain10, WALLET_A]
    have hpre : List.find? (fun p => decide (p.owner = some "POOL"))
        txBurnPoolGain10.preTokenBalances = some ⟨2, "VMINT", some "POOL", some 0⟩ := by
      simp [txBurnPoolGain10, WALLET_A]
    have hfind1 : List.find? (fun b => decide (b.accountIndex = 1))
        txBurnPoolGain10.postTokenBalances = some ⟨1, "VMINT", some WALLET_A, some 0⟩ := by
      simp [txBurnPoolGain10]
    have hlb : logBurn "VMINT" "POOL" "SIG1"
        txBurnPoolGain10.preTokenBalances txBurnPoolGain10.postTokenBalances
        = some (TxEvent.burn "SIG1" (some WALLET_A) 100) := by
      simp only [txBurnPoolGain10] at hpost hpre hfind1 ⊢
      simp only [logBurn, amountOf, hpost, hpre, hfind1, List.findSome?]
      norm_num
    have hlog : isBurnLog ["Program log: Instruction: Burn"] = true := by decide
    simp only [processTransaction, txBurnPoolGain10] at hdead hlb ⊢
    simp only [hdead, hlog, if_pos, hlb]
  have htx3 : processTransaction "VMINT" "POOL" "SIG1" txSellPoolGain99 = none := by
    have hdead : deadTransferBurn "VMINT" "SIG1"
        txSellPoolGain99.preTokenBalances txSellPoolGain99.postTokenBalances = none := by
      simp [txSellPoolGain99, deadTransferBurn, WALLET_A, INCINERATOR, DEAD_ADDRESS]
    have hpost : List.find? (fun b => decide (b.owner = some "POOL"))
        txSellPoolGain99.postTokenBalances = some ⟨2, "VMINT", some "POOL", some 99⟩ := by
      simp [txSellPoolGain99, WALLET_A]
    have hpre : List.find? (fun p => decide (p.owner = some "POOL"))
        txSellPoolGain99.preTokenBalances = some ⟨2, "VMINT", some "POOL", some 0⟩ := by
      simp [txSellPoolGain99, WALLET_A]
    have hfind1post : List.find? (fun b => decide (b.accountIndex = 1))
        txSellPoolGain99.postTokenBalances = some ⟨1, "VMINT", some WALLET_A, some 0⟩ := by
      simp [txSellPoolGain99]
    have hfind2post : List.find? (fun b => decide (b.accountIndex = 2))
        txSellPoolGain99.postTokenBalances = some ⟨2, "VMINT", some "POOL", some 99⟩ := by
      simp [txSellPoolGain99]
    have hfind1pre : List.find? (fun p => decide (p.accountIndex = 1))
        txSellPoolGain99.preTokenBalances = some ⟨1, "VMINT", some WALLET_A, some 100⟩ := by
      simp [txSellPoolGain99]
    have hfind2pre : List.find? (fun p => decide (p.accountIndex = 2))
        txSellPoolGain99.preTokenBalances = some ⟨2, "VMINT", some "POOL", some 0⟩ := by
      simp [txSellPoolGain99]
    have hlb : logBurn "VMINT" "POOL" "SIG1"
        txSellPoolGain99.preTokenBalances txSellPoolGain99.postTokenBalances = none := by
      simp only [txSellPoolGain99] at hpost hpre hfind1post hfind2post ⊢
      simp only [logBurn, amountOf, hpost, hpre, hfind1post, hfind2post]
      norm_num
    have hlog : isBurnLog ["Program log: Instruction: Burn"] = true := by decide
    simp only [processTransaction, txSellPoolGain99] at hdead hlb hfind1pre hfind2pre ⊢
    simp only [hdead, hlog, if_pos, hlb]
    simp only [List.foldl_cons, List.foldl_nil, buyStep, amountOf, hfind1pre, hfind2pre, POOLS]
    norm_num [WALLET_A, METEORA_POOL_W_VOID, METEORA_POOL_P_VOID, HELPER_WALLET,
      show ¬ (("WaaaaaaaaaaaaaaaaaaaaaaaaaaaaaaaaaaaaaaaaaaW" : String) = "POOL") by decide,
      show ¬ (("WaaaaaaaaaaaaaaaaaaaaaaaaaaaaaaaaaaaaaaaaaaW" : String) = "6rE8Ej3aae9QBukLYWFvzDAYmRgsygpKK1LbqLjHJGcL") by decide,
      show ¬ (("WaaaaaaaaaaaaaaaaaaaaaaaaaaaaaaaaaaaaaaaaaaW" : String) = "5jW3M4defHZgCAt27FQU7upeELu5yWroiax9nmd2Bv62") by decide,
      show ¬ (("WaaaaaaaaaaaaaaaaaaaaaaaaaaaaaaaaaaaaaaaaaaW" : String).length < 44) by decide,
      show ¬ (("POOL" : String) = "") by decide]
  exact ⟨htx1, hspec, by rw [hspec]; norm_num, htx2, htx3⟩

/- ────────────────────────────────────────────
   C4: atomic arbitrage aggregation
   ──────────────────────────────────────────── -/

/-- C4 — atomic arbitrage aggregation: in a transaction with no burn-sink
transfer and no burn log marker where two distinct pool-owned accounts
(the configured Raydium pool and the first Meteora pool) lose 50 and 30
tracked-mint tokens and exactly one wallet account gains 80, the
classification emits exactly one Buy event with amount 80 — the sum of
the pool-side losses — attributed to the gaining wallet's owner with that
wallet's resulting balance. The wallet owner is wallet-looking (length at
least 44) and not the internal helper wallet; the configured pool id is
not a burn-sink address. -/
theorem arbitrage_aggregation (voidMint poolId sig w f : String)
    (hw44 : ¬ w.length < 44)
    (hwh : w ≠ HELPER_WALLET)
    (hpinc : poolId ≠ INCINERATOR) (hpdead : poolId ≠ DEAD_ADDRESS) :
    processTransaction voidMint poolId sig
      ⟨[⟨0, voidMint, some poolId, some 500⟩, ⟨1, voidMint, some METEORA_POOL_W_VOID, some 300⟩,
        ⟨2, voidMint, some w, some 0⟩],
       [⟨0, voidMint, some poolId, some 450⟩, ⟨1, voidMint, some METEORA_POOL_W_VOID, some 270⟩,
        ⟨2, voidMint, some w, some 80⟩],
       [], f⟩ = some (TxEvent.buy sig w 80 80) := by
  have hwinc : w ≠ INCINERATOR := by
    intro h
    exact hw44 (by rw [h]; decide)
  have hwdead : w ≠ DEAD_ADDRESS := by
    intro h
    exact hw44 (by rw [h]; decide)
  have hwne : w ≠ "" := by
    intro h
    exact hw44 (by rw [h]; decide)
  have hminc : METEORA_POOL_W_VOID ≠ INCINERATOR := by decide
  have hmdead : METEORA_POOL_W_VOID ≠ DEAD_ADDRESS := by decide
  have hdead : deadTransferBurn voidMint sig
      [⟨0, voidMint, some poolId, some 500⟩, ⟨1, voidMint, some METEORA_POOL_W_VOID, some 300⟩,
        ⟨2, voidMint, some w, some 0⟩]
      [⟨0, voidMint, some poolId, some 450⟩, ⟨1, voidMint, some METEORA_POOL_W_VOID, some 270⟩,
        ⟨2, voidMint, some w, some 80⟩] = none := by
    simp [deadTransferBurn, hpinc, hpdead, hwinc, hwdead, hminc, hmdead]
  have hfind0 : List.find? (fun p => decide (p.accountIndex = 0))
      [(⟨0, voidMint, some poolId, some 500⟩ : TokenBalance),
        ⟨1, voidMint, some METEORA_POOL_W_VOID, some 300⟩, ⟨2, voidMint, some w, some 0⟩]
      = some ⟨0, voidMint, some poolId, some 500⟩ := by simp
  have hfind1 : List.find? (fun p => decide (p.accountIndex = 1))
      [(⟨0, voidMint, some poolId, some 500⟩ : TokenBalance),
        ⟨1, voidMint, some METEORA_POOL_W_VOID, some 300⟩, ⟨2, voidMint, some w, some 0⟩]
      = some ⟨1, voidMint, some METEORA_POOL_W_VOID, some 300⟩ := by simp
  have hfind2 : List.find? (fun p => decide (p.accountIndex = 2))
      [(⟨0, voidMint, some poolId, some 500⟩ : TokenBalance),
        ⟨1, voidMint, some METEORA_POOL_W_VOID, some 300⟩, ⟨2, voidMint, some w, some 0⟩]
      = some ⟨2, voidMint, some w, some 0⟩ := by simp
  simp only [processTransaction, hdead]
  have hbl : isBurnLog [] = false := rfl
  simp only [hbl, Bool.false_eq_true, if_false]
  simp only [List.foldl_cons, List.foldl_nil, buyStep, amountOf, hfind0, hfind1, hfind2, POOLS]
  norm_num [hwh, hwne, List.any_cons]

/-- Witness for C4 at a concrete wallet and configuration. -/
theorem arbitrage_aggregation_witness :
    processTransaction "VMINT" "POOL" "SIG2"
      ⟨[⟨0, "VMINT", some "POOL", some 500⟩, ⟨1, "VMINT", some METEORA_POOL_W_VOID, some 300⟩,
        ⟨2, "VMINT", some WALLET_A, some 0⟩],
       [⟨0, "VMINT", some "POOL", some 450⟩, ⟨1, "VMINT", some METEORA_POOL_W_VOID, some 270⟩,
        ⟨2, "VMINT", some WALLET_A, some 80⟩],
       [], "PAYER"⟩ = some (TxEvent.buy "SIG2" WALLET_A 80 80) :=
  arbitrage_aggregation "VMINT" "POOL" "SIG2" WALLET_A "PAYER"
    (by decide) (by decide) (by decide) (by decide)

/- ────────────────────────────────────────────
   src/telegram/buybot.ts — handleBuy
   ──────────────────────────────────────────── -/

/-- `ARB_IMAGE_URL` default from buybot.ts. -/
def ARB_IMAGE_URL : String := "https://voidsolana.com/arbitrage.jpg"

/-- `BURN_IMAGE_URL` default from buybot.ts. -/
def BURN_IMAGE_URL : String := "https://voidsolana.com/burn.jpg"

/-- `currentBalance < ARB_BALANCE_THRESHOLD` (line 421). -/
def isArbitrage (arbBalanceThreshold currentBalance : ℚ) : Bool :=
  decide (currentBalance < arbBalanceThreshold)

/-- The notification `handleBuy` enqueues, reduced to the fields the
claims are about: which image is used (the arbitrage image versus the
rank image of the buyer's resulting balance), the arbitrage flag, and
the USD value. The caption text and supply metrics are presentation only
and are not modelled. -/
structure BuyNotice where
  photo : String
  arb : Bool
  usdValue : ℚ
deriving DecidableEq

/-- The decision logic of `handleBuy` (buybot.ts lines 408-462), with the
externally-supplied thresholds (`MIN_BUY_USD`, `MIN_ARB_USD`,
`ARB_BALANCE_THRESHOLD`, defaults 25 / 25 / 500) and the price lookup
made explicit: a missing price suppresses the notification; an arbitrage
buy below `MIN_ARB_USD` and a normal buy below `MIN_BUY_USD` are
skipped (strict `<`); otherwise exactly one notification is enqueued. -/
def handleBuy (minBuyUsd minArbUsd arbBalanceThreshold : ℚ)
    (price : Option (ℚ × ℚ)) (voidAmount currentBalance : ℚ) : Option BuyNotice :=
  match price with
  | none => none
  | some p =>
    let usdValue := voidAmount * p.1
    let arb := isArbitrage arbBalanceThreshold currentBalance
    if arb = true ∧ usdValue < minArbUsd then none
    else if arb = false ∧ usdValue < minBuyUsd then none
    else some ⟨if arb then ARB_IMAGE_URL else getRankImageUrl (getVoidRank currentBalance),
               arb, usdValue⟩

/-- C5 — with MIN_BUY_USD = 25 and MIN_ARB_USD = 25 (and the default
arbitrage balance threshold 500), a buy whose amount times the current
USD price is 24.99 enqueues zero notifications, and one whose USD value
is exactly 25.00 enqueues exactly one: both threshold comparisons are
strict less-than, so the boundary value passes, for arbitrage and
non-arbitrage balances alike. -/
theorem buy_threshold_boundary :
    ∀ (p : ℚ × ℚ) (amount balance : ℚ),
    (amount * p.1 = 2499/100 → handleBuy 25 25 500 (some p) amount balance = none) ∧
    (amount * p.1 = 25 → (handleBuy 25 25 500 (some p) amount balance).isSome = true) := by
  intro p amount balance
  by_cases hb : balance < (500 : ℚ)
  · constructor <;> intro h <;> norm_num [handleBuy, isArbitrage, hb, h]
  · constructor <;> intro h <;> norm_num [handleBuy, isArbitrage, hb, h]

/-- Witness for C5 at concrete inputs: price 24.99 with amount 1 and an
arbitrage-sized balance yields no notification; price 25 with amount 1
and a large balance yields one. -/
theorem buy_threshold_boundary_witness :
    handleBuy 25 25 500 (some (2499/100, 1)) 1 0 = none ∧
    (handleBuy 25 25 500 (some (25, 1)) 1 1000).isSome = true :=
  ⟨(buy_threshold_boundary (2499/100, 1) 1 0).1 (by norm_num),
   (buy_threshold_boundary (25, 1) 1 1000).2 (by norm_num)⟩

/- ────────────────────────────────────────────
   C10: trades with no gaining account
   ──────────────────────────────────────────── -/

theorem deadTransferBurn_shape (voidMint sig : String) (pre post : List TokenBalance)
    (e : TxEvent) (h : deadTransferBurn voidMint sig pre post = some e) :
    ∃ a g, e = TxEvent.burn sig a g := by
  simp only [deadTransferBurn] at h
  obtain ⟨b, _, hb⟩ := List.exists_of_findSome?_eq_some h
  split_ifs at hb
  simp only [Option.some.injEq] at hb
  exact ⟨_, _, hb.symm⟩

theorem logBurn_shape (voidMint poolId sig : String) (pre post : List TokenBalance)
    (e : TxEvent) (h : logBurn voidMint poolId sig pre post = some e) :
    ∃ a g, e = TxEvent.burn sig a g := by
  simp only [logBurn] at h
  obtain ⟨b, _, hb⟩ := List.exists_of_findSome?_eq_some h
  split_ifs at hb
  simp only [Option.some.injEq] at hb
  exact ⟨_, _, hb.symm⟩

theorem buyStep_no_gain (voidMint poolId : String) (pre : List TokenBalance)
    (acc : BuySweep) (b : TokenBalance)
    (h : b.mint = voidMint →
      b.uiAmount.getD 0 - amountOf (pre.find? fun p => decide (p.accountIndex = b.accountIndex)) ≤ 0) :
    (buyStep voidMint poolId pre acc b).buyer = acc.buyer ∧
    (buyStep voidMint poolId pre acc b).maxBuyerBalance = acc.maxBuyerBalance := by
  simp only [buyStep]
  by_cases hmint : b.mint = voidMint
  · rw [if_pos hmint]
    specialize h hmint
    by_cases hneg : b.uiAmount.getD 0 -
        amountOf (pre.find? fun p => decide (p.accountIndex = b.accountIndex)) < 0
    · rw [if_pos hneg]
      split <;> exact ⟨rfl, rfl⟩
    · rw [if_neg hneg, if_neg (not_lt.mpr h)]
      exact ⟨rfl, rfl⟩
  · rw [if_neg hmint]
    exact ⟨rfl, rfl⟩

theorem buySweepFold_no_gain (voidMint poolId : String) (pre : List TokenBalance) :
    ∀ (post : List TokenBalance),
    (∀ b ∈ post, b.mint = voidMint →
      b.uiAmount.getD 0 - amountOf (pre.find? fun p => decide (p.accountIndex = b.accountIndex)) ≤ 0) →
    ∀ acc : BuySweep,
      (List.foldl (buyStep voidMint poolId pre) acc post).buyer = acc.buyer ∧
      (List.foldl (buyStep voidMint poolId pre) acc post).maxBuyerBalance = acc.maxBuyerBalance := by
  intro post
  induction post with
  | nil => intro _ acc; exact ⟨rfl, rfl⟩
  | cons b rest ih =>
    intro h acc
    rw [List.foldl_cons]
    have hb := buyStep_no_gain voidMint poolId pre acc b (h b (List.mem_cons_self b rest))
    have hr := ih (fun x hx => h x (List.mem_cons_of_mem b hx)) (buyStep voidMint poolId pre acc b)
    exact ⟨hr.1.trans hb.1, hr.2.trans hb.2⟩

/-- C10 — if no tracked-mint account's balance increased in a transaction
yet `processTransaction` still emits a Buy event (some pool-owned or
PDA-looking account lost more than the dust floor), that event is
attributed to the transaction's fee payer — the initial value of the
sweep's `buyer` variable — with a resulting balance of 0, the initial
`maxBuyerBalance`; consequently `handleBuy` treats it as an arbitrage
transaction for every positive arbitrage balance threshold. -/
theorem no_gain_buy_attribution (voidMint poolId sig s buyer : String) (tx : ParsedTx)
    (amt bal : ℚ)
    (hnogain : ∀ b ∈ tx.postTokenBalances, b.mint = voidMint →
      b.uiAmount.getD 0 - amountOf (tx.preTokenBalances.find? fun p =>
        decide (p.accountIndex = b.accountIndex)) ≤ 0)
    (h : processTransaction voidMint poolId sig tx = some (TxEvent.buy s buyer amt bal)) :
    buyer = tx.feePayer ∧ bal = 0 ∧
    (∀ arbBalanceThreshold : ℚ, 0 < arbBalanceThreshold →
      isArbitrage arbBalanceThreshold bal = true) := by
  have hfold := buySweepFold_no_gain voidMint poolId tx.preTokenBalances tx.postTokenBalances
    hnogain ⟨0, tx.feePayer, 0, false⟩
  simp only [processTransaction] at h
  cases hd : deadTransferBurn voidMint sig tx.preTokenBalances tx.postTokenBalances with
  | some e =>
    rw [hd] at h
    obtain ⟨a, g, rfl⟩ := deadTransferBurn_shape _ _ _ _ _ hd
    simp at h
  | none =>
    rw [hd] at h
    have hbuy : (if (tx.postTokenBalances.foldl (buyStep voidMint poolId tx.preTokenBalances)
          ⟨0, tx.feePayer, 0, false⟩).isTrade = true ∧
          1/100 < (tx.postTokenBalances.foldl (buyStep voidMint poolId tx.preTokenBalances)
            ⟨0, tx.feePayer, 0, false⟩).totalBought ∧
          (tx.postTokenBalances.foldl (buyStep voidMint poolId tx.preTokenBalances)
            ⟨0, tx.feePayer, 0, false⟩).buyer ≠ HELPER_WALLET then
        some (TxEvent.buy sig
          (tx.postTokenBalances.foldl (buyStep voidMint poolId tx.preTokenBalances)
            ⟨0, tx.feePayer, 0, false⟩).buyer
          (tx.postTokenBalances.foldl (buyStep voidMint poolId tx.preTokenBalances)
            ⟨0, tx.feePayer, 0, false⟩).totalBought
          (tx.postTokenBalances.foldl (buyStep voidMint poolId tx.preTokenBalances)
            ⟨0, tx.feePayer, 0, false⟩).maxBuyerBalance)
        else none) = some (TxEvent.buy s buyer amt bal) := by
      cases hbl : isBurnLog tx.logMessages with
      | false =>
        rw [hbl] at h
        simpa using h
      | true =>
        rw [hbl] at h
        cases hlb : logBurn voidMint poolId sig tx.preTokenBalances tx.postTokenBalances with
        | some e =>
          rw [hlb] at h
          obtain ⟨a, g, rfl⟩ := logBurn_shape _ _ _ _ _ _ hlb
          simp at h
        | none =>
          rw [hlb] at h
          simpa using h
    split_ifs at hbuy
    simp only [Option.some.injEq, TxEvent.buy.injEq] at hbuy
    obtain ⟨_, hbuyer, _, hbal⟩ := hbuy
    refine ⟨?_, ?_, ?_⟩
    · rw [← hbuyer, hfold.1]
    · rw [← hbal, hfold.2]
    · intro t ht
      have hbal0 : bal = 0 := by rw [← hbal, hfold.2]
      rw [hbal0]
      simp [isArbitrage, ht]

/-- The concrete trade used to instantiate C10: the pool's tracked-mint
account loses 50 and no account gains. -/
def txNoGain : ParsedTx :=
  ⟨[⟨0, "VMINT", some "POOL", some 500⟩],
   [⟨0, "VMINT", some "POOL", some 450⟩],
   [], "PAYER"⟩

/-- Witness for C10: on `txNoGain` the classifier emits a Buy, and the
theorem attributes it to the fee payer with an arbitrage-flagged balance
of 0 at the default threshold 500. -/
theorem no_gain_buy_attribution_witness :
    "PAYER" = txNoGain.feePayer ∧ isArbitrage 500 0 = true :=
  have heval : processTransaction "VMINT" "POOL" "SIG3" txNoGain
      = some (TxEvent.buy "SIG3" "PAYER" 50 0) := by
    have hdead : deadTransferBurn "VMINT" "SIG3"
        txNoGain.preTokenBalances txNoGain.postTokenBalances = none := by
      simp [txNoGain, deadTransferBurn, INCINERATOR, DEAD_ADDRESS]
    have hfind0 : List.find? (fun p => decide (p.accountIndex = 0))
        txNoGain.preTokenBalances = some ⟨0, "VMINT", some "POOL", some 500⟩ := by
      simp [txNoGain]
    simp only [processTransaction, txNoGain] at hdead hfind0 ⊢
    simp only [hdead]
    have hbl : isBurnLog [] = false := rfl
    simp only [hbl, Bool.false_eq_true, if_false]
    simp only [List.foldl_cons, List.foldl_nil, buyStep, amountOf, hfind0, POOLS]
    norm_num [HELPER_WALLET, show ¬ (("PAYER" : String)
      = "CEJnLWLEzRGSaeaoWKVSnhA4QD4mZaRY9sQbz4NNfyLz") by decide]
  have h := no_gain_buy_attribution "VMINT" "POOL" "SIG3" "SIG3" "PAYER" txNoGain 50 0
    (by
      intro b hb
      simp only [txNoGain, List.mem_singleton] at hb
      subst hb
      intro _
      norm_num [amountOf, txNoGain])
    heval
  ⟨h.1, h.2.2 500 (by norm_num)⟩

end VoidBot
